import Mathlib

/-!
Shallow embedding of src/parse.py, a probabilistic Earley parser.
Weights are modelled as rationals, Python exceptions as an explicit error
type, and the mutable chart state as explicit state passing.  Each
definition mirrors the Python function of the same name.
-/

set_option maxHeartbeats 1000000

/-- Python exceptions (and one marker for the fuel that bounds the
embedded main loop, which the original code runs without bound). -/
inductive PyErr : Type where
  | nameError : PyErr
  | typeError : PyErr
  | valueError : PyErr
  | indexError : PyErr
  | assertionError : PyErr
  | outOfFuel : PyErr
deriving DecidableEq

/-- Mirrors the frozen dataclass Rule: lhs, rhs, weight (parse.py lines 310-331).
Equality is structural over all three fields, as for the Python dataclass. -/
structure Rule : Type where
  lhs : String
  rhs : List String
  weight : ℚ
deriving DecidableEq

/-- Mirrors the frozen dataclass ItemKey (parse.py lines 334-339):
the identity used for duplicate detection. -/
structure ItemKey : Type where
  rule : Rule
  dot_position : ℕ
  start_position : ℕ
deriving DecidableEq

/-- Mirrors the dataclass Item (parse.py lines 344-393).  backpointers is
Optional in Python (default None), holding a list of child items. -/
inductive Item : Type where
  | mk (rule : Rule) (dot_position : ℕ) (start_position : ℕ) (weight : ℚ)
      (backpointers : Option (List Item)) : Item

def Item.rule : Item → Rule
  | .mk r _ _ _ _ => r

def Item.dot_position : Item → ℕ
  | .mk _ d _ _ _ => d

def Item.start_position : Item → ℕ
  | .mk _ _ s _ _ => s

def Item.weight : Item → ℚ
  | .mk _ _ _ w _ => w

def Item.backpointers : Item → Option (List Item)
  | .mk _ _ _ _ b => b

/-- Mirrors Item.get_key (parse.py lines 377-379). -/
def Item.get_key (it : Item) : ItemKey :=
  ItemKey.mk it.rule it.dot_position it.start_position

/-- Mirrors Item.next_symbol (parse.py lines 357-363).  The Python method
asserts 0 <= dot_position <= len(rhs); the lower bound is automatic for ℕ,
and a violated upper bound is an AssertionError. -/
def Item.next_symbol (it : Item) : Except PyErr (Option String) :=
  if it.rule.rhs.length < it.dot_position then .error .assertionError
  else if it.dot_position = it.rule.rhs.length then .ok none
  else .ok (some (it.rule.rhs.getD it.dot_position ""))

/-- Mirrors Item.advance (parse.py lines 365-372): raises IndexError when the
dot is already past the end of the rule; otherwise builds the new Item from
the arguments (the new dot position is the caller-supplied argument). -/
def Item.advance (it : Item) (dot_position : ℕ) (weight : ℚ)
    (backpointers : List Item) : Except PyErr Item :=
  match it.next_symbol with
  | .error e => .error e
  | .ok none => .error .indexError
  | .ok (some _) =>
      .ok (Item.mk it.rule dot_position it.start_position weight (some backpointers))

/-- Models calling the Python Item dataclass constructor.  The weight field
has no default value, so a call that omits it raises TypeError; the
backpointers field defaults to None when omitted. -/
def Item.construct (rule : Rule) (dot_position : ℕ) (start_position : ℕ)
    (weight : Option ℚ) (backpointers : Option (Option (List Item))) :
    Except PyErr Item :=
  match weight with
  | none => .error .typeError
  | some w =>
      .ok (Item.mk rule dot_position start_position w (backpointers.getD none))

/-- Association-list reading of a Python dict of Items keyed by ItemKey:
dict.get(key). -/
def indexGet : List (ItemKey × Item) → ItemKey → Option Item
  | [], _ => none
  | (k', v') :: rest, k => if k' = k then some v' else indexGet rest k

/-- Association-list writing of a Python dict of Items keyed by ItemKey:
dict[key] = value (updates in place when present, appends when absent,
preserving insertion order as Python dicts do). -/
def indexSet : List (ItemKey × Item) → ItemKey → Item → List (ItemKey × Item)
  | [], k, v => [(k, v)]
  | (k', v') :: rest, k, v =>
      if k' = k then (k, v) :: rest else (k', v') :: indexSet rest k v

/-- Mirrors the Agenda class state (parse.py lines 216-219): the list of all
items ever appended, the duplicate-detection dict, and the index of the next
unpopped item. -/
structure Agenda : Type where
  _items : List Item
  _index : List (ItemKey × Item)
  _next : ℕ

def Agenda.empty : Agenda := Agenda.mk [] [] 0

/-- Mirrors Agenda.__len__ (parse.py lines 228-231): items still waiting. -/
def Agenda.size (a : Agenda) : ℕ := a._items.length - a._next

/-- Mirrors Agenda.push (parse.py lines 233-244): new identities are
appended and indexed; a strictly lower-weight duplicate replaces the index
entry and is re-appended for reprocessing; otherwise the push is ignored.
Superseded entries are never removed from _items. -/
def Agenda.push (a : Agenda) (item : Item) : Agenda :=
  match indexGet a._index item.get_key with
  | none =>
      Agenda.mk (a._items ++ [item]) (indexSet a._index item.get_key item) a._next
  | some existing_item =>
      if item.weight < existing_item.weight then
        Agenda.mk (a._items ++ [item]) (indexSet a._index item.get_key item) a._next
      else a

/-- Mirrors Agenda.pop (parse.py lines 246-253): IndexError when nothing is
waiting, otherwise return the next item and advance _next. -/
def Agenda.pop (a : Agenda) : Except PyErr (Item × Agenda) :=
  if h : a._next < a._items.length then
    .ok (a._items.get ⟨a._next, h⟩, Agenda.mk a._items a._index (a._next + 1))
  else .error .indexError

/-- Mirrors Agenda.all (parse.py lines 255-258): every item ever pushed,
including already-popped and superseded ones. -/
def Agenda.all (a : Agenda) : List Item := a._items

/-- In-place update of one column of the chart (Python list mutation at a
valid index; the engine only touches indices it has bounds-checked). -/
def modifyAt {α : Type} : List α → ℕ → (α → α) → List α
  | [], _, _ => []
  | x :: xs, 0, f => f x :: xs
  | x :: xs, n + 1, f => x :: modifyAt xs n f

/-- Association-list reading of the _expansions dict keyed by lhs string. -/
def lookupExp : List (String × List Rule) → String → Option (List Rule)
  | [], _ => none
  | (k, v) :: rest, s => if k = s then some v else lookupExp rest s

/-- Models self._expansions[lhs].append(rule) on a defaultdict(list): the
key's list gains the rule at the end; an absent key is inserted (at the end,
as Python dicts preserve insertion order) holding the one-element list. -/
def expansionsAppend : List (String × List Rule) → String → Rule →
    List (String × List Rule)
  | [], lhs, r => [(lhs, [r])]
  | (k, rs) :: rest, lhs, r =>
      if k = lhs then (k, rs ++ [r]) :: rest
      else (k, rs) :: expansionsAppend rest lhs r

/-- Mirrors the Grammar class state (parse.py lines 265-274): the start
symbol and the lhs-indexed rule lists (a defaultdict(list) in the source). -/
structure Grammar : Type where
  start_symbol : String
  _expansions : List (String × List Rule)
deriving DecidableEq

def Grammar.add_rule (g : Grammar) (r : Rule) : Grammar :=
  Grammar.mk g.start_symbol (expansionsAppend g._expansions r.lhs r)

/-- Mirrors Grammar.expansions (parse.py lines 295-297): returns
self._expansions[lhs].  Because _expansions is a defaultdict(list), reading
a missing key inserts an empty list for it as a side effect, so the
(possibly) updated grammar is returned alongside the value. -/
def Grammar.expansions (g : Grammar) (lhs : String) :
    List Rule × Grammar :=
  match lookupExp g._expansions lhs with
  | some rs => (rs, g)
  | none => ([], Grammar.mk g.start_symbol (g._expansions ++ [(lhs, [])]))

/-- Mirrors Grammar.is_nonterminal (parse.py lines 299-301):
symbol in self._expansions (no side effect). -/
def Grammar.is_nonterminal (g : Grammar) (symbol : String) : Bool :=
  (lookupExp g._expansions symbol).isSome

/-- Folds Grammar.add_rule over a rule list starting from an empty grammar
(the net effect of a successful load, used to state properties of the
expansions/is_nonterminal pair). -/
def buildGrammar (start_symbol : String) (rules : List Rule) : Grammar :=
  rules.foldl Grammar.add_rule (Grammar.mk start_symbol [])

/-- Rules currently stored for an lhs (empty when the key is absent). -/
def rulesFor (g : Grammar) (lhs : String) : List Rule :=
  (lookupExp g._expansions lhs).getD []

/-- Models the library function math.log2 used at parse.py line 291: it
raises ValueError on a non-positive argument and otherwise returns log2.
The returned value is modelled by the integer floor of log2, which agrees
with log2 exactly on powers of two -- the only arguments whose value any
statement below depends on. -/
def math_log2 (q : ℚ) : Except PyErr ℚ :=
  if q ≤ 0 then .error .valueError
  else .ok ((Int.log 2 q : ℤ) : ℚ)

/-- Mirrors the per-line body of Grammar.add_rules_from_file (parse.py lines
288-293) after the tab-splitting and float() parse: weight = -math.log2(prob),
then the Rule is built and appended under its lhs.  Comment stripping and
field splitting are elided; the probability is received already parsed. -/
def add_rule_line (g : Grammar) (prob : ℚ) (lhs : String)
    (rhs : List String) : Except PyErr Grammar :=
  match math_log2 prob with
  | .error e => .error e
  | .ok l => .ok (g.add_rule (Rule.mk lhs rhs (-l)))

/-- Names bound in the module scope of parse.py when Grammar.__init__ runs:
the import lines 8-16 bind annotations, argparse, logging, math, tqdm,
dataclass, Path, Counter, CounterType, Iterable, List, Optional, Dict and
Tuple, and the top level defines log, parse_args, EarleyChart, Agenda,
Grammar, Rule, ItemKey, Item, format_tree and main.  Python's builtins add
no further name relevant here; in particular neither they nor this list
contain defaultdict, which line 271 references. -/
def moduleScopeNames : List String :=
  ["annotations", "argparse", "logging", "math", "tqdm", "dataclass",
   "Path", "Counter", "CounterType", "Iterable", "List", "Optional",
   "Dict", "Tuple", "log", "parse_args", "EarleyChart", "Agenda",
   "Grammar", "Rule", "ItemKey", "Item", "format_tree", "main"]

/-- Mirrors Grammar.__init__ (parse.py lines 267-274): line 271 evaluates
the name defaultdict, which resolves only if it is in scope; otherwise
Python raises NameError before any file is read.  Files are received as
lists of already-parsed (probability, lhs, rhs) rule lines. -/
def Grammar.init (start_symbol : String)
    (files : List (List (ℚ × String × List String))) : Except PyErr Grammar :=
  if moduleScopeNames.contains "defaultdict" then
    files.foldlM
      (fun g f =>
        f.foldlM (fun g' l => add_rule_line g' l.1 l.2.1 l.2.2) g)
      (Grammar.mk start_symbol [])
  else .error .nameError

/-- The mutable state of EarleyChart during _run_earley: the columns, the
best goal item found so far, and the grammar (threaded because
Grammar.expansions can mutate its defaultdict). -/
structure EarleyState : Type where
  cols : List Agenda
  found_goal_item : Option Item
  grammar : Grammar

/-- Mirrors the loop body of EarleyChart._predict (parse.py lines 138-142).
The first statement of each iteration is
Item(rule, dot_position=0, start_position=position), which omits the
required weight argument of the Item dataclass and therefore raises
TypeError; the push on line 140 is modelled for the (unreachable) case in
which construction succeeds. -/
def predictLoop (cols : List Agenda) (position : ℕ) :
    List Rule → Except PyErr (List Agenda)
  | [] => .ok cols
  | rule :: rest =>
      match Item.construct rule 0 position none none with
      | .error e => .error e
      | .ok new_item =>
          predictLoop (modifyAt cols position (fun a => a.push new_item)) position rest

/-- Mirrors EarleyChart._predict (parse.py lines 136-142): read the
expansions of the nonterminal (possibly mutating the grammar's defaultdict)
and run the loop over them. -/
def predictStep (st : EarleyState) (nonterminal : String) (position : ℕ) :
    Except PyErr EarleyState :=
  let p := st.grammar.expansions nonterminal
  match predictLoop st.cols position p.1 with
  | .error e => .error e
  | .ok cols' => .ok (EarleyState.mk cols' st.found_goal_item p.2)

/-- Mirrors EarleyChart._scan (parse.py lines 144-153): when the position is
inside the sentence and the token there equals the item's next symbol, the
item is advanced (same weight, backpointers = the one-element list holding
the pre-scan item itself) and pushed into the next column; otherwise the
chart is unchanged. -/
def scanStep (tokens : List String) (cols : List Agenda) (item : Item)
    (position : ℕ) : Except PyErr (List Agenda) :=
  if position < tokens.length then
    match item.next_symbol with
    | .error e => .error e
    | .ok ns =>
        if ns = some (tokens.getD position "") then
          match item.advance (item.dot_position + 1) item.weight [item] with
          | .error e => .error e
          | .ok new_item =>
              if position + 1 < cols.length then
                .ok (modifyAt cols (position + 1) (fun a => a.push new_item))
              else .error .indexError
        else .ok cols
  else .ok cols

/-- Models customer.backpointers + [item] (parse.py line 166): Python
raises TypeError when backpointers is None. -/
def bpAppend : Option (List Item) → Item → Except PyErr (List Item)
  | none, _ => .error .typeError
  | some l, item => .ok (l ++ [item])

/-- Mirrors the loop of EarleyChart._attach (parse.py lines 160-169): walk
the items of the mid column by index (pushes into the same column during
the walk are seen, as for a Python for-loop over a growing list), advancing
each customer whose next symbol is the completed item's lhs. -/
def attachLoop : ℕ → List Agenda → Item → ℕ → ℕ → ℕ →
    Except PyErr (List Agenda)
  | 0, _, _, _, _, _ => .error .outOfFuel
  | fuel + 1, cols, item, mid, position, idx =>
      if hmid : mid < cols.length then
        let customers := (cols.get ⟨mid, hmid⟩).all
        if hidx : idx < customers.length then
          let customer := customers.get ⟨idx, hidx⟩
          match customer.next_symbol with
          | .error e => .error e
          | .ok ns =>
              if ns = some item.rule.lhs then
                match bpAppend customer.backpointers item with
                | .error e => .error e
                | .ok bps =>
                    match customer.advance (customer.dot_position + 1)
                        (customer.weight + item.weight) bps with
                    | .error e => .error e
                    | .ok new_item =>
                        attachLoop fuel
                          (modifyAt cols position (fun a => a.push new_item))
                          item mid position (idx + 1)
              else attachLoop fuel cols item mid position (idx + 1)
        else .ok cols
      else .error .indexError

/-- Mirrors the goal check of _run_earley (parse.py lines 122-126): a
completed item whose lhs is the start symbol, whose start is 0 and whose
column is the last one replaces the recorded goal when it is strictly
better (or when none is recorded). -/
def goalCheck (st : EarleyState) (item : Item) (i : ℕ) (n : ℕ) : EarleyState :=
  if item.rule.lhs = st.grammar.start_symbol then
    if item.start_position = 0 then
      if i = n then
        match st.found_goal_item with
        | none => EarleyState.mk st.cols (some item) st.grammar
        | some fg =>
            if item.weight < fg.weight then
              EarleyState.mk st.cols (some item) st.grammar
            else st
      else st
    else st
  else st

/-- Mirrors the drain loop over one column in _run_earley (parse.py lines
115-134): while the column has unpopped items, pop one, look at its next
symbol and dispatch to ATTACH (plus the goal check), PREDICT or SCAN.  The
source loops without bound; the embedding spends one unit of fuel per
popped item. -/
def drainColumn : ℕ → List String → EarleyState → ℕ → Except PyErr EarleyState
  | 0, _, _, _ => .error .outOfFuel
  | fuel + 1, tokens, st, i =>
      if hi : i < st.cols.length then
        let col := st.cols.get ⟨i, hi⟩
        if col.size = 0 then .ok st
        else
          match col.pop with
          | .error e => .error e
          | .ok (item, col') =>
              let st1 := EarleyState.mk (modifyAt st.cols i (fun _ => col'))
                st.found_goal_item st.grammar
              match item.next_symbol with
              | .error e => .error e
              | .ok none =>
                  match attachLoop (fuel + 1) st1.cols item item.start_position i 0 with
                  | .error e => .error e
                  | .ok cols' =>
                      let st2 := goalCheck
                        (EarleyState.mk cols' st1.found_goal_item st1.grammar)
                        item i tokens.length
                      drainColumn fuel tokens st2 i
              | .ok (some s) =>
                  if st1.grammar.is_nonterminal s then
                    match predictStep st1 s i with
                    | .error e => .error e
                    | .ok st2 => drainColumn fuel tokens st2 i
                  else
                    match scanStep tokens st1.cols item i with
                    | .error e => .error e
                    | .ok cols' =>
                        drainColumn fuel tokens
                          (EarleyState.mk cols' st1.found_goal_item st1.grammar) i
      else .error .indexError

/-- Mirrors EarleyChart._run_earley (parse.py lines 101-134): one empty
column per inter-token position, seed column 0 by predicting the start
symbol, then drain the columns left to right. -/
def runEarley (fuel : ℕ) (g : Grammar) (tokens : List String) :
    Except PyErr EarleyState :=
  let st := EarleyState.mk (List.replicate (tokens.length + 1) Agenda.empty) none g
  match predictStep st g.start_symbol 0 with
  | .error e => .error e
  | .ok st' =>
      (List.range (tokens.length + 1)).foldlM
        (fun s i => drainColumn fuel tokens s i) st'

/-- The minimum of the weights of the items of a given identity in a push
sequence (none when the identity never occurs). -/
def keyMin (k : ItemKey) : List Item → Option ℚ
  | [] => none
  | it :: rest =>
      if it.get_key = k then
        match keyMin k rest with
        | none => some it.weight
        | some m => some (min it.weight m)
      else keyMin k rest

/-- Minimum of two optional rationals, none acting as plus infinity. -/
def mergeMin : Option ℚ → Option ℚ → Option ℚ
  | none, m => m
  | some w, none => some w
  | some w, some m => some (min w m)

/-- Whether a grammar-load step succeeded. -/
def isOkG : Except PyErr Grammar → Bool
  | .ok _ => true
  | .error _ => false

/-- Number of rules stored for an lhs after a load step (0 on error). -/
def addedCount (e : Except PyErr Grammar) (lhs : String) : ℕ :=
  match e with
  | .ok g => (rulesFor g lhs).length
  | .error _ => 0

/-- The rule ROOT -> a with probability 1, hence weight 0. -/
def ruleRootA : Rule := Rule.mk "ROOT" ["a"] 0

/-- A grammar value holding exactly the rule ROOT -> a (weight 0), as the
engine would receive it had Grammar construction succeeded. -/
def gRootA : Grammar := Grammar.mk "ROOT" [("ROOT", [ruleRootA])]

/-- A grammar value holding exactly the rule ROOT -> a a (weight 0). -/
def gRootAA : Grammar := Grammar.mk "ROOT" [("ROOT", [Rule.mk "ROOT" ["a", "a"] 0])]

/-- An Item sharing an identity used by several concrete statements. -/
def itemChildX : Item := Item.mk (Rule.mk "X" ["x"] 0) 1 0 0 (some [])

/-- A customer item mid-rule, with one back-pointer already recorded. -/
def itemCustBX : Item := Item.mk (Rule.mk "B" ["x", "a"] 1) 1 0 2 (some [itemChildX])

/-- The item that _scan builds from itemCustBX on token a at position 0. -/
def itemScannedBX : Item := Item.mk (Rule.mk "B" ["x", "a"] 1) 2 0 2 (some [itemCustBX])

theorem indexGet_set_self (l : List (ItemKey × Item)) (k : ItemKey) (v : Item) :
    indexGet (indexSet l k v) k = some v := by
  induction l with
  | nil => simp [indexSet, indexGet]
  | cons p rest ih =>
    obtain ⟨k', v'⟩ := p
    by_cases h : k' = k
    · simp [indexSet, indexGet, h]
    · simp [indexSet, indexGet, h, ih]

theorem indexGet_set_ne (l : List (ItemKey × Item)) (k k₂ : ItemKey) (v : Item)
    (h : k₂ ≠ k) : indexGet (indexSet l k v) k₂ = indexGet l k₂ := by
  induction l with
  | nil => simp [indexSet, indexGet, Ne.symm h]
  | cons p rest ih =>
    obtain ⟨k', v'⟩ := p
    by_cases hk : k' = k
    · subst hk
      simp [indexSet, indexGet, Ne.symm h]
    · simp only [indexSet, if_neg hk]
      by_cases hq : k' = k₂
      · simp [indexGet, hq]
      · simp [indexGet, hq, ih]

theorem push_index_get_new (a : Agenda) (it : Item) (k : ItemKey)
    (hidx : indexGet a._index it.get_key = none) :
    indexGet (a.push it)._index k =
      if it.get_key = k then some it else indexGet a._index k := by
  by_cases hk : it.get_key = k
  · subst hk; simp [Agenda.push, hidx, indexGet_set_self]
  · simp [Agenda.push, hidx, hk, indexGet_set_ne _ _ _ _ (fun hh => hk hh.symm)]

theorem push_index_get_better (a : Agenda) (it : Item) (k : ItemKey) (ex : Item)
    (hidx : indexGet a._index it.get_key = some ex)
    (hw : it.weight < ex.weight) :
    indexGet (a.push it)._index k =
      if it.get_key = k then some it else indexGet a._index k := by
  by_cases hk : it.get_key = k
  · subst hk; simp [Agenda.push, hidx, hw, indexGet_set_self]
  · simp [Agenda.push, hidx, hw, hk, indexGet_set_ne _ _ _ _ (fun hh => hk hh.symm)]

theorem push_index_get_keep (a : Agenda) (it : Item) (k : ItemKey) (ex : Item)
    (hidx : indexGet a._index it.get_key = some ex)
    (hw : ¬it.weight < ex.weight) :
    indexGet (a.push it)._index k = indexGet a._index k := by
  simp [Agenda.push, hidx, hw]

theorem mergeMin_assoc (x y z : Option ℚ) :
    mergeMin (mergeMin x y) z = mergeMin x (mergeMin y z) := by
  cases x <;> cases y <;> cases z <;> simp [mergeMin, min_assoc]

theorem keyMin_cons_self (it : Item) (rest : List Item) :
    keyMin it.get_key (it :: rest) =
      mergeMin (some it.weight) (keyMin it.get_key rest) := by
  simp only [keyMin, if_pos rfl]
  cases keyMin it.get_key rest <;> rfl

theorem keyMin_cons_ne (k : ItemKey) (it : Item) (rest : List Item)
    (h : ¬it.get_key = k) : keyMin k (it :: rest) = keyMin k rest := by
  simp only [keyMin, if_neg h]

theorem foldl_push_index_min (its : List Item) :
    ∀ (a : Agenda) (k : ItemKey),
      Option.map Item.weight (indexGet ((its.foldl Agenda.push a)._index) k) =
        mergeMin (Option.map Item.weight (indexGet a._index k)) (keyMin k its) := by
  induction its with
  | nil =>
    intro a k
    rw [List.foldl_nil]
    cases h : indexGet a._index k <;> simp [keyMin, mergeMin, h]
  | cons it rest ih =>
    intro a k
    rw [List.foldl_cons, ih]
    by_cases hk : it.get_key = k
    · subst hk
      rw [keyMin_cons_self, ← mergeMin_assoc]
      congr 1
      cases hidx : indexGet a._index it.get_key with
      | none =>
        rw [push_index_get_new a it _ hidx, if_pos rfl]
        rfl
      | some ex =>
        by_cases hw : it.weight < ex.weight
        · rw [push_index_get_better a it _ ex hidx hw, if_pos rfl]
          show some it.weight = some (min ex.weight it.weight)
          rw [min_eq_right (le_of_lt hw)]
        · rw [push_index_get_keep a it _ ex hidx hw, hidx]
          show some ex.weight = some (min ex.weight it.weight)
          rw [min_eq_left (not_lt.mp hw)]
    · rw [keyMin_cons_ne k it rest hk]
      congr 1
      cases hidx : indexGet a._index it.get_key with
      | none => rw [push_index_get_new a it _ hidx, if_neg hk]
      | some ex =>
        by_cases hw : it.weight < ex.weight
        · rw [push_index_get_better a it _ ex hidx hw, if_neg hk]
        · rw [push_index_get_keep a it _ ex hidx hw]

theorem foldl_push_items_sublist (its : List Item) :
    ∀ a : Agenda, ∃ l, (its.foldl Agenda.push a)._items = a._items ++ l ∧
      l.Sublist its := by
  induction its with
  | nil => intro a; exact ⟨[], by simp, List.nil_sublist []⟩
  | cons it rest ih =>
    intro a
    obtain ⟨l, hl, hs⟩ := ih (a.push it)
    cases hidx : indexGet a._index it.get_key with
    | none =>
      refine ⟨it :: l, ?_, List.Sublist.cons₂ it hs⟩
      rw [List.foldl_cons, hl]
      simp [Agenda.push, hidx]
    | some ex =>
      by_cases hw : it.weight < ex.weight
      · refine ⟨it :: l, ?_, List.Sublist.cons₂ it hs⟩
        rw [List.foldl_cons, hl]
        simp [Agenda.push, hidx, hw]
      · refine ⟨l, ?_, List.Sublist.cons it hs⟩
        rw [List.foldl_cons, hl]
        simp [Agenda.push, hidx, hw]

/-- Claim C2 (amended): after any sequence of pushes into a fresh Agenda,
the representative that duplicate detection consults in _index carries, for
every identity, exactly the minimum over all weights ever pushed with that
identity; the _items list that ATTACH scans contains only pushed items
(a sublist of the push sequence), but it may retain superseded
higher-weight copies of an identity alongside the better ones. -/
theorem c2_agenda_min_weight_index :
    (∀ (its : List Item) (k : ItemKey),
      Option.map Item.weight
          (indexGet ((its.foldl Agenda.push Agenda.empty)._index) k) =
        keyMin k its)
    ∧ ∀ its : List Item,
        ((its.foldl Agenda.push Agenda.empty)._items).Sublist its := by
  constructor
  · intro its k
    rw [foldl_push_index_min]
    rfl
  · intro its
    obtain ⟨l, hl, hs⟩ := foldl_push_items_sublist its Agenda.empty
    rw [hl]
    simpa using hs

/-- Claim C2 is refuted as stated: pushing two items of equal identity and
weights 5 then 3 leaves both in _items, the list that ATTACH's scan
iterates, so an equal-identity pair with different weights is
simultaneously visible in the column. -/
theorem c2_agenda_stale_items_counterexample :
    ((Agenda.empty.push (Item.mk ruleRootA 0 0 5 (some []))).push
        (Item.mk ruleRootA 0 0 3 (some [])))._items =
      [Item.mk ruleRootA 0 0 5 (some []), Item.mk ruleRootA 0 0 3 (some [])] ∧
    (Item.mk ruleRootA 0 0 5 (some [])).get_key =
      (Item.mk ruleRootA 0 0 3 (some [])).get_key ∧
    (Item.mk ruleRootA 0 0 5 (some [])).weight ≠
      (Item.mk ruleRootA 0 0 3 (some [])).weight := by
  refine ⟨rfl, rfl, ?_⟩
  show (5 : ℚ) ≠ 3
  norm_num

/-- Claim C9: every construction of a Grammar raises NameError, for every
start symbol and every list of rule files, because the name defaultdict
referenced on parse.py line 271 is not bound anywhere in the module. -/
theorem c9_grammar_init_name_error
    (start_symbol : String) (files : List (List (ℚ × String × List String))) :
    Grammar.init start_symbol files = .error .nameError := rfl

/-- Claim C6 fails on the code: running the program's grammar-construction
step on the single-rule grammar ROOT -> a (probability 1) raises NameError
before any sentence is parsed, so the output (ROOT a) and weight 0 are
never produced. -/
theorem c6_end_to_end_name_error :
    Grammar.init "ROOT" [[((1 : ℚ), "ROOT", ["a"])]] = .error .nameError := rfl

/-- Claim C1 fails on the code: even given a grammar value for ROOT -> a,
the engine raises TypeError while seeding column 0 (the Item constructed in
_predict omits its required weight argument), so no parse, and hence no
optimal parse, is ever returned on input a. -/
theorem c1_run_earley_type_error :
    runEarley 32 gRootA ["a"] = .error .typeError := rfl

/-- Claim C3 fails on the code: predicting ROOT at column 0 on the grammar
ROOT -> a raises TypeError, because Item(rule, dot_position=0,
start_position=position) omits the required weight argument; no item with
weight = rule.weight and empty back-pointers is ever pushed. -/
theorem c3_predict_missing_weight :
    predictStep (EarleyState.mk [Agenda.empty, Agenda.empty] none gRootA)
      "ROOT" 0 = .error .typeError := rfl

/-- Claim C5 fails on the code: on the grammar ROOT -> a a and input a a the
engine raises TypeError during seeding, so it never returns a tree whose
yield could be compared with the input. -/
theorem c5_yield_unreachable :
    runEarley 32 gRootAA ["a", "a"] = .error .typeError := rfl

/-- Claim C10: Item.advance raises IndexError exactly when the dot is
already at the end of the rule's rhs, and the items built by the engine's
advance calls (SCAN and ATTACH both pass dot_position + 1 for an item whose
next symbol exists) have dot_position within [0, |rhs|], so next_symbol's
assertion cannot fail on them; PREDICT's construction raises before
producing any item. -/
theorem c10_advance_dot_safety :
    (∀ (it : Item) (d : ℕ) (w : ℚ) (bp : List Item),
      it.dot_position = it.rule.rhs.length →
      it.advance d w bp = .error .indexError)
    ∧ (∀ (it : Item) (w : ℚ) (bp : List Item),
      it.dot_position < it.rule.rhs.length →
      it.advance (it.dot_position + 1) w bp =
        .ok (Item.mk it.rule (it.dot_position + 1) it.start_position w (some bp)) ∧
      it.dot_position + 1 ≤ it.rule.rhs.length ∧
      (Item.mk it.rule (it.dot_position + 1) it.start_position w
          (some bp)).next_symbol ≠ .error .assertionError) := by
  constructor
  · intro it d w bp h
    have hns : it.next_symbol = .ok none := by
      unfold Item.next_symbol
      rw [if_neg (by omega), if_pos h]
    unfold Item.advance
    rw [hns]
  · intro it w bp h
    have hns : it.next_symbol =
        .ok (some (it.rule.rhs.getD it.dot_position "")) := by
      unfold Item.next_symbol
      rw [if_neg (by omega), if_neg (by omega)]
    refine ⟨?_, by omega, ?_⟩
    · unfold Item.advance
      rw [hns]
    · have hr : (Item.mk it.rule (it.dot_position + 1) it.start_position w
          (some bp)).rule = it.rule := rfl
      have hd : (Item.mk it.rule (it.dot_position + 1) it.start_position w
          (some bp)).dot_position = it.dot_position + 1 := rfl
      unfold Item.next_symbol
      rw [hr, hd, if_neg (by omega)]
      split <;> simp

/-- Witness for C10 at the rule ROOT -> a: advancing a completed item
raises IndexError, and advancing a predicted-shape item one step succeeds
with an in-range dot whose next_symbol does not assert. -/
theorem c10_advance_dot_safety_witness :
    (Item.mk ruleRootA 1 0 0 (some [])).advance 5 0 [] = .error .indexError ∧
    ((Item.mk ruleRootA 0 0 0 none).advance (0 + 1) 3 [] =
        .ok (Item.mk ruleRootA (0 + 1) 0 3 (some [])) ∧
      0 + 1 ≤ ruleRootA.rhs.length ∧
      (Item.mk ruleRootA (0 + 1) 0 3 (some [])).next_symbol ≠
        .error .assertionError) :=
  ⟨c10_advance_dot_safety.1 (Item.mk ruleRootA 1 0 0 (some [])) 5 0 [] rfl,
   c10_advance_dot_safety.2 (Item.mk ruleRootA 0 0 0 none) 3 []
     (by show 0 < ruleRootA.rhs.length; norm_num [ruleRootA])⟩

/-- Claim C4 (amended): when the position is inside the sentence and the
token there equals the item's next symbol, _scan pushes into the next
column the item with the dot advanced by one, the same start position, the
weight unchanged, and back-pointers equal to the one-element sequence
holding the pre-scan customer item itself (not the customer's back-pointers
extended with a terminal sentinel); past the last column or on a mismatched
token nothing is pushed. -/
theorem c4_scan_backpointers (tokens : List String) (cols : List Agenda)
    (item : Item) (position : ℕ)
    (hdot : item.dot_position < item.rule.rhs.length)
    (hpos : position + 1 < cols.length) :
    (position < tokens.length →
      tokens.getD position "" = item.rule.rhs.getD item.dot_position "" →
      scanStep tokens cols item position =
        .ok (modifyAt cols (position + 1) (fun a =>
          a.push (Item.mk item.rule (item.dot_position + 1) item.start_position
            item.weight (some [item])))))
    ∧ (tokens.length ≤ position → scanStep tokens cols item position = .ok cols)
    ∧ (position < tokens.length →
        tokens.getD position "" ≠ item.rule.rhs.getD item.dot_position "" →
        scanStep tokens cols item position = .ok cols) := by
  have hns : item.next_symbol =
      .ok (some (item.rule.rhs.getD item.dot_position "")) := by
    unfold Item.next_symbol
    rw [if_neg (by omega), if_neg (by omega)]
  have hadv : item.advance (item.dot_position + 1) item.weight [item] =
      .ok (Item.mk item.rule (item.dot_position + 1) item.start_position
        item.weight (some [item])) := by
    unfold Item.advance
    rw [hns]
  refine ⟨?_, ?_, ?_⟩
  · intro hlt heq
    simp only [scanStep, if_pos hlt, hns, hadv]
    rw [if_pos (congrArg some heq.symm), if_pos hpos]
  · intro hge
    unfold scanStep
    rw [if_neg (by omega)]
  · intro hlt hne
    simp only [scanStep, if_pos hlt, hns]
    rw [if_neg (fun hc => hne (Option.some.inj hc).symm)]

/-- Witness for C4 at the rule ROOT -> a on input a: the scanned item is
pushed into column 1 carrying the singleton back-pointer list. -/
theorem c4_scan_backpointers_witness :
    scanStep ["a"] [Agenda.empty, Agenda.empty]
        (Item.mk ruleRootA 0 0 0 (some [])) 0 =
      .ok (modifyAt [Agenda.empty, Agenda.empty] (0 + 1) (fun a =>
        a.push (Item.mk ruleRootA (0 + 1) 0 0
          (some [Item.mk ruleRootA 0 0 0 (some [])])))) :=
  (c4_scan_backpointers ["a"] [Agenda.empty, Agenda.empty]
      (Item.mk ruleRootA 0 0 0 (some [])) 0
      (by show 0 < ruleRootA.rhs.length; norm_num [ruleRootA])
      (by norm_num)).1 (by norm_num) rfl

/-- Claim C4 is refuted as stated: scanning a customer that already carries
one back-pointer produces an item whose back-pointer list is the singleton
holding the customer itself, which cannot equal the customer's
back-pointers extended by any sentinel element. -/
theorem c4_scan_sentinel_counterexample :
    scanStep ["a"] [Agenda.empty, Agenda.empty] itemCustBX 0 =
      .ok [Agenda.empty,
        Agenda.mk [itemScannedBX] [(itemScannedBX.get_key, itemScannedBX)] 0] ∧
    itemScannedBX.backpointers = some [itemCustBX] ∧
    ∀ s : Item, itemScannedBX.backpointers ≠
      some (itemCustBX.backpointers.getD [] ++ [s]) := by
  refine ⟨rfl, rfl, ?_⟩
  intro s h
  have hlen := congrArg (fun o => (Option.getD o []).length) h
  simp [itemScannedBX, itemCustBX, Item.backpointers] at hlen

theorem lookupExp_expansionsAppend (l : List (String × List Rule))
    (lhs : String) (r : Rule) :
    lookupExp (expansionsAppend l lhs r) lhs =
      some ((lookupExp l lhs).getD [] ++ [r]) := by
  induction l with
  | nil => simp [expansionsAppend, lookupExp]
  | cons p rest ih =>
    obtain ⟨k, rs⟩ := p
    by_cases hk : k = lhs
    · subst hk
      simp [expansionsAppend, lookupExp]
    · simp [expansionsAppend, lookupExp, hk, ih]

theorem rulesFor_add_rule (g : Grammar) (r : Rule) :
    rulesFor (g.add_rule r) r.lhs = rulesFor g r.lhs ++ [r] := by
  simp only [rulesFor, Grammar.add_rule]
  rw [lookupExp_expansionsAppend]
  rfl

/-- Claim C7 (amended): a rule line with probability zero or negative makes
the load raise ValueError (math.log2's domain error) before any Rule is
built; but a probability strictly greater than one is accepted without any
error, appending under its lhs a Rule whose weight -log2(p) is
non-positive. -/
theorem c7_probability_validation (g : Grammar) (p : ℚ) (lhs : String)
    (rhs : List String) :
    (p ≤ 0 → add_rule_line g p lhs rhs = .error .valueError) ∧
    (1 < p →
      add_rule_line g p lhs rhs =
        .ok (g.add_rule (Rule.mk lhs rhs (-((Int.log 2 p : ℤ) : ℚ)))) ∧
      rulesFor (g.add_rule (Rule.mk lhs rhs (-((Int.log 2 p : ℤ) : ℚ)))) lhs =
        rulesFor g lhs ++ [Rule.mk lhs rhs (-((Int.log 2 p : ℤ) : ℚ))] ∧
      -((Int.log 2 p : ℤ) : ℚ) ≤ 0) := by
  constructor
  · intro hp
    unfold add_rule_line math_log2
    rw [if_pos hp]
  · intro hp
    have h1 : add_rule_line g p lhs rhs =
        .ok (g.add_rule (Rule.mk lhs rhs (-((Int.log 2 p : ℤ) : ℚ)))) := by
      unfold add_rule_line math_log2
      rw [if_neg (not_le.mpr (by linarith : (0 : ℚ) < p))]
    have h2 := rulesFor_add_rule g (Rule.mk lhs rhs (-((Int.log 2 p : ℤ) : ℚ)))
    have h3 : (0 : ℤ) ≤ Int.log 2 p := by
      rw [Int.log_of_one_le_right _ (le_of_lt hp)]
      exact Int.natCast_nonneg _
    have h4 : (0 : ℚ) ≤ ((Int.log 2 p : ℤ) : ℚ) := by exact_mod_cast h3
    exact ⟨h1, h2, by linarith⟩

/-- Witness for C7: probability 0 raises ValueError, and probability 2 is
accepted, appending a rule of non-positive weight. -/
theorem c7_probability_validation_witness :
    (add_rule_line (Grammar.mk "S" []) 0 "A" ["a"] = .error .valueError) ∧
    (add_rule_line (Grammar.mk "S" []) 2 "A" ["a"] =
        .ok ((Grammar.mk "S" []).add_rule
          (Rule.mk "A" ["a"] (-((Int.log 2 (2 : ℚ) : ℤ) : ℚ)))) ∧
      rulesFor ((Grammar.mk "S" []).add_rule
          (Rule.mk "A" ["a"] (-((Int.log 2 (2 : ℚ) : ℤ) : ℚ)))) "A" =
        rulesFor (Grammar.mk "S" []) "A" ++
          [Rule.mk "A" ["a"] (-((Int.log 2 (2 : ℚ) : ℤ) : ℚ))] ∧
      -((Int.log 2 (2 : ℚ) : ℤ) : ℚ) ≤ 0) :=
  ⟨(c7_probability_validation (Grammar.mk "S" []) 0 "A" ["a"]).1 (by norm_num),
   (c7_probability_validation (Grammar.mk "S" []) 2 "A" ["a"]).2 (by norm_num)⟩

/-- Claim C7 is refuted as stated: the rule line with probability 2 (> 1)
does not fail the load; it is accepted and a Rule is added under ROOT. -/
theorem c7_prob_gt_one_counterexample :
    isOkG (add_rule_line (Grammar.mk "ROOT" []) 2 "ROOT" ["a"]) = true ∧
    addedCount (add_rule_line (Grammar.mk "ROOT" []) 2 "ROOT" ["a"]) "ROOT" = 1 := by
  have h : add_rule_line (Grammar.mk "ROOT" []) 2 "ROOT" ["a"] =
      .ok ((Grammar.mk "ROOT" []).add_rule
        (Rule.mk "ROOT" ["a"] (-((Int.log 2 (2 : ℚ) : ℤ) : ℚ)))) := by
    unfold add_rule_line math_log2
    rw [if_neg (by norm_num)]
  rw [h]
  exact ⟨rfl, rfl⟩

theorem expansionsAppend_vals_ne_nil (l : List (String × List Rule))
    (lhs : String) (r : Rule) (h : ∀ p ∈ l, p.2 ≠ []) :
    ∀ p ∈ expansionsAppend l lhs r, p.2 ≠ [] := by
  induction l with
  | nil =>
    intro p hp
    simp only [expansionsAppend, List.mem_singleton] at hp
    subst hp
    simp
  | cons q rest ih =>
    obtain ⟨k, rs⟩ := q
    intro p hp
    by_cases hk : k = lhs
    · subst hk
      simp [expansionsAppend, List.mem_cons] at hp
      rcases hp with hp | hp
      · subst hp; simp
      · exact h p (List.mem_cons_of_mem _ hp)
    · simp only [expansionsAppend, if_neg hk, List.mem_cons] at hp
      rcases hp with hp | hp
      · subst hp
        exact h (k, rs) (List.mem_cons_self _ _)
      · exact ih (fun q hq => h q (List.mem_cons_of_mem _ hq)) p hp

theorem foldl_add_rule_vals_ne_nil (rules : List Rule) :
    ∀ g : Grammar, (∀ p ∈ g._expansions, p.2 ≠ []) →
      ∀ p ∈ (rules.foldl Grammar.add_rule g)._expansions, p.2 ≠ [] := by
  induction rules with
  | nil => intro g h; simpa using h
  | cons r rest ih =>
    intro g h
    rw [List.foldl_cons]
    exact ih _ (expansionsAppend_vals_ne_nil _ _ _ h)

theorem lookupExp_mem (l : List (String × List Rule)) (s : String)
    (v : List Rule) (h : lookupExp l s = some v) : ∃ k, (k, v) ∈ l := by
  induction l with
  | nil => simp [lookupExp] at h
  | cons p rest ih =>
    obtain ⟨k, rs⟩ := p
    by_cases hk : k = s
    · simp only [lookupExp, if_pos hk] at h
      exact ⟨k, by rw [← Option.some.inj h]; exact List.mem_cons_self _ _⟩
    · simp only [lookupExp, if_neg hk] at h
      obtain ⟨k₂, hm⟩ := ih h
      exact ⟨k₂, List.mem_cons_of_mem _ hm⟩

theorem lookupExp_append (l l₂ : List (String × List Rule)) (s : String)
    (h : lookupExp l s = none) : lookupExp (l ++ l₂) s = lookupExp l₂ s := by
  induction l with
  | nil => simp
  | cons p rest ih =>
    obtain ⟨k, rs⟩ := p
    by_cases hk : k = s
    · simp only [lookupExp, if_pos hk] at h
      exact absurd h (by simp)
    · simp only [lookupExp, if_neg hk] at h
      rw [List.cons_append]
      simp only [lookupExp, if_neg hk]
      exact ih h

/-- Claim C8 (amended): on a grammar just built from rules (before any
expansions query), is_nonterminal(s) is true exactly when expansions(s) is
nonempty; but expansions on an absent key returns the empty sequence while
inserting the key into the defaultdict as a side effect, after which
is_nonterminal(s) answers true even though expansions(s) is empty. -/
theorem c8_nonterminal_defaultdict :
    (∀ (start_symbol : String) (rules : List Rule) (s : String),
      (buildGrammar start_symbol rules).is_nonterminal s = true ↔
        ((buildGrammar start_symbol rules).expansions s).1 ≠ [])
    ∧ (∀ (g : Grammar) (s : String), lookupExp g._expansions s = none →
        ((g.expansions s).1 = [] ∧
          ((g.expansions s).2.is_nonterminal s) = true)) := by
  constructor
  · intro start_symbol rules s
    have hnn : ∀ p ∈ (buildGrammar start_symbol rules)._expansions, p.2 ≠ [] :=
      foldl_add_rule_vals_ne_nil rules (Grammar.mk start_symbol []) (by simp)
    cases hl : lookupExp (buildGrammar start_symbol rules)._expansions s with
    | none =>
      simp [Grammar.is_nonterminal, Grammar.expansions, hl]
    | some v =>
      have hv : v ≠ [] := by
        obtain ⟨k, hm⟩ := lookupExp_mem _ _ _ hl
        exact hnn (k, v) hm
      simp [Grammar.is_nonterminal, Grammar.expansions, hl, hv]
  · intro g s h
    constructor
    · simp [Grammar.expansions, h]
    · simp [Grammar.expansions, h, Grammar.is_nonterminal,
        lookupExp_append _ _ _ h, lookupExp]

/-- Witness for C8 at an empty grammar: querying expansions of an unseen
symbol returns the empty list yet flips is_nonterminal to true. -/
theorem c8_nonterminal_defaultdict_witness :
    ((Grammar.mk "R" []).expansions "x").1 = [] ∧
    (((Grammar.mk "R" []).expansions "x").2.is_nonterminal "x") = true :=
  c8_nonterminal_defaultdict.2 (Grammar.mk "R" []) "x" rfl

/-- Claim C8 is refuted as stated: after the call sequence expansions(b)
on the grammar holding only ROOT -> a, is_nonterminal(b) answers true while
expansions(b) is empty, so the claimed equivalence fails. -/
theorem c8_expansions_side_effect_counterexample :
    (((buildGrammar "ROOT" [ruleRootA]).expansions "b").2.is_nonterminal "b") = true ∧
    (((buildGrammar "ROOT" [ruleRootA]).expansions "b").1 = []) := ⟨rfl, rfl⟩
